import Mathlib

/-!
Shallow embedding of the core logic of the `resume-ranker` repository
(`src/app.py` and `src/enhanced_extraction.py`) and verification of
spec claims about it.

Conventions of the embedding:
* Python strings are modelled as `String` / `List Char`; text processing
  (`lower`, `strip`, `split`, regex matching) is modelled over ASCII
  characters, which covers all inputs appearing in the claims.
* A Python value that may be `None` is modelled as `Option String`
  (`none` = Python `None`); code that can raise an uncaught exception is
  modelled with an `Option` result (`none` = the exception propagates).
* Python `re.findall` over the concrete patterns appearing in the source
  is modelled by direct recursive matchers that implement the
  leftmost-scan, greedy-with-backtracking semantics of those patterns.
* Floating point similarity values coming from the external TF-IDF /
  cosine-similarity engine are modelled as rationals supplied by an
  oracle parameter; the external parser and NER services are likewise
  oracle parameters.
-/

namespace ResumeRanker

/-! ### ASCII character helpers (Python `str` methods) -/

/-- Python `\s` / `str.strip` whitespace characters (ASCII). -/
def isWsChar (c : Char) : Bool :=
  c = ' ' || c = '\t' || c = '\n' || c = '\x0d' || c = '\x0b' || c = '\x0c'

/-- Python `str.isdigit` (ASCII). -/
def isDigitChar (c : Char) : Bool := '0' ≤ c && c ≤ '9'

/-- Python `str.isalpha` for a single character (ASCII). -/
def isAlphaChar (c : Char) : Bool :=
  ('a' ≤ c && c ≤ 'z') || ('A' ≤ c && c ≤ 'Z')

/-- Python `str.isupper` for a single character (ASCII). -/
def isUpperChar (c : Char) : Bool := 'A' ≤ c && c ≤ 'Z'

/-- Python `str.lower` on one character (ASCII). -/
def lowerChar (c : Char) : Char :=
  if 'A' ≤ c && c ≤ 'Z' then Char.ofNat (c.toNat + 32) else c

/-- Python `str.lower` (ASCII). -/
def lowerStr (s : List Char) : List Char := s.map lowerChar

/-- Strip leading whitespace. -/
def stripLeft : List Char → List Char
  | [] => []
  | c :: t => if isWsChar c then stripLeft t else c :: t

/-- Python `str.strip`: strip leading and trailing whitespace. -/
def strip (s : List Char) : List Char :=
  stripLeft ((stripLeft s.reverse).reverse)

/-- Python `str.split('\n')`. -/
def splitLinesAux (cur : List Char) : List Char → List (List Char)
  | [] => [cur.reverse]
  | c :: t => if c = '\n' then cur.reverse :: splitLinesAux [] t
              else splitLinesAux (c :: cur) t

def splitLines (s : List Char) : List (List Char) := splitLinesAux [] s

/-- Python `str.split()` (no argument): split on whitespace runs,
dropping empty tokens. -/
def splitWsAux (cur : List Char) : List Char → List (List Char)
  | [] => if cur.isEmpty then [] else [cur.reverse]
  | c :: t =>
    if isWsChar c then
      if cur.isEmpty then splitWsAux [] t else cur.reverse :: splitWsAux [] t
    else splitWsAux (c :: cur) t

def splitWords (s : List Char) : List (List Char) := splitWsAux [] s

/-- Python substring containment `needle in hay`. -/
def containsSub (needle : List Char) : List Char → Bool
  | [] => needle.isEmpty
  | c :: t => needle.isPrefixOf (c :: t) || containsSub needle t

/-! ### `extract_skills` (enhanced_extraction.py lines 140-160) -/

/-- The `skills_database` dictionary, in Python insertion order
(category order, then within-category order). -/
def skills_database : List (String × List String) :=
  [("programming", ["python", "java", "javascript", "c++", "c#", "php",
                    "ruby", "go", "rust"]),
   ("web", ["html", "css", "react", "angular", "vue", "node.js",
            "express", "django", "flask"]),
   ("database", ["sql", "mysql", "postgresql", "mongodb", "redis",
                 "elasticsearch"]),
   ("cloud", ["aws", "azure", "gcp", "docker", "kubernetes", "terraform"]),
   ("ml", ["machine learning", "deep learning", "tensorflow", "pytorch",
           "scikit-learn"]),
   ("tools", ["git", "jenkins", "jira", "slack", "figma", "photoshop"])]

/-- All dictionary skill tokens, flattened in scan order. -/
def allSkills : List String := skills_database.flatMap Prod.snd

/-- Model of `extract_skills`: lowercase the text, then append every dictionary
token contained in it as a substring, scanning categories in dictionary
order and tokens within a category in list order.  The nested
`for category / for skill / if skill in text_lower: append` loop of the
source is exactly a filter over the flattened dictionary. -/
def extract_skills (text : String) : List String :=
  let text_lower := lowerStr text.toList
  allSkills.filter (fun skill => containsSub skill.toList text_lower)

/-! ### Regex machinery for `extract_experience_years`
(enhanced_extraction.py lines 162-175)

The three patterns are matched with direct recursive matchers.  Greedy
sub-expressions whose follower can never overlap the repeated class
(`\d+` before `\+?\s*y…`, `\s*` before a letter/digit/colon, `\+?` and
`:?` and `\(?` before a non-matching follower) are implemented as
deterministic maximal munch, which coincides with backtracking
semantics there; the genuinely ambiguous points (`years?`'s optional
`s`, the optional `of\s*` group) are implemented with explicit
alternative order (greedy first) via `<|>`. -/

/-- Maximal run of digits (the greedy `\d+`, with its capture). -/
def takeDigits : List Char → List Char × List Char
  | [] => ([], [])
  | c :: t =>
    if isDigitChar c then
      let (ds, r) := takeDigits t
      (c :: ds, r)
    else ([], c :: t)

/-- Skip a maximal run of whitespace (`\s*`). -/
def skipWs : List Char → List Char
  | [] => []
  | c :: t => if isWsChar c then skipWs t else c :: t

/-- Match a literal string, returning the remainder. -/
def matchLit : List Char → List Char → Option (List Char)
  | [], cs => some cs
  | _ :: _, [] => none
  | l :: lt, c :: ct => if c = l then matchLit lt ct else none

/-- Consume one given character if present (`X?` where the follower can
never match `X`). -/
def optChar (c : Char) : List Char → List Char
  | [] => []
  | d :: t => if d = c then t else d :: t

/-- Python `int` on a digit string. -/
def digitsToNat (ds : List Char) : Nat :=
  ds.foldl (fun n c => n * 10 + (c.toNat - '0'.toNat)) 0

/-- Shared head of patterns 1 and 2: `(\d+)\+?\s*years?` followed by a
pattern-specific tail, with the optional `s` tried greedily first. -/
def matchYearsHead (tail : List Char → Option (List Char))
    (cs : List Char) : Option (Nat × List Char) :=
  let (ds, cs1) := takeDigits cs
  if ds.isEmpty then none
  else
    let cs2 := skipWs (optChar '+' cs1)
    match matchLit "year".toList cs2 with
    | none => none
    | some cs3 =>
      let t :=
        match cs3 with
        | 's' :: cs4 => tail cs4 <|> tail cs3
        | _ => tail cs3
      t.map (fun r => (digitsToNat ds, r))

/-- Pattern `(\d+)\+?\s*years?\s*(?:of\s*)?experience` at one position. -/
def matchP1At : List Char → Option (Nat × List Char) :=
  matchYearsHead fun cs =>
    let cs1 := skipWs cs
    (do
      let cs2 ← matchLit "of".toList cs1
      matchLit "experience".toList (skipWs cs2)) <|>
    matchLit "experience".toList cs1

/-- Pattern `(\d+)\+?\s*years?\s*in` at one position. -/
def matchP2At : List Char → Option (Nat × List Char) :=
  matchYearsHead fun cs => matchLit "in".toList (skipWs cs)

/-- Pattern `experience\s*:?\s*(\d+)\+?\s*years?` at one position. -/
def matchP3At (cs : List Char) : Option (Nat × List Char) := do
  let cs1 ← matchLit "experience".toList cs
  let cs2 := skipWs (optChar ':' (skipWs cs1))
  let (ds, cs3) := takeDigits cs2
  if ds.isEmpty then none
  else
    let cs4 := skipWs (optChar '+' cs3)
    let cs5 ← matchLit "year".toList cs4
    return (digitsToNat ds, optChar 's' cs5)

/-- Python `re.findall` scan: try the pattern at every position left to right;
on a match, record the capture and continue after the match (one
position further on an empty match, as Python does).  The fuel argument
is only a structural-termination device; `findall` supplies enough. -/
def findallAux (p : List Char → Option (Nat × List Char)) :
    Nat → List Char → List Nat
  | 0, _ => []
  | fuel + 1, cs =>
    match p cs with
    | some (v, rest) =>
      if rest.length < cs.length then v :: findallAux p fuel rest
      else v :: findallAux p fuel (cs.drop 1)
    | none =>
      match cs with
      | [] => []
      | _ :: t => findallAux p fuel t

def findall (p : List Char → Option (Nat × List Char))
    (cs : List Char) : List Nat :=
  findallAux p (cs.length + 1) cs

/-- Python `max` over a non-empty list of naturals. -/
def maxNat (l : List Nat) : Nat := l.foldl Nat.max 0

/-- Model of `extract_experience_years`: for each pattern in order, run
`re.findall` on the lowercased text; as soon as one pattern has any
match, return the maximum of that pattern's matches; return 0 if no
pattern matches. -/
def extract_experience_years (text : String) : Nat :=
  let t := lowerStr text.toList
  let m1 := findall matchP1At t
  if ¬m1.isEmpty then maxNat m1
  else
    let m2 := findall matchP2At t
    if ¬m2.isEmpty then maxNat m2
    else
      let m3 := findall matchP3At t
      if ¬m3.isEmpty then maxNat m3 else 0

/-! ### `extract_name_heuristic` (enhanced_extraction.py lines 70-84) -/

/-- The per-line test of the heuristic, on the stripped line: non-empty,
no digit anywhere, 2-4 whitespace-separated words, every word purely
alphabetic, every word's first character uppercase. -/
def nameLineOk (line : List Char) : Bool :=
  ¬line.isEmpty && ¬line.any isDigitChar &&
    (let words := splitWords line
     decide (2 ≤ words.length) && decide (words.length ≤ 4) &&
       words.all (fun w => ¬w.isEmpty && w.all isAlphaChar) &&
       words.all (fun w => match w with
         | c :: _ => isUpperChar c
         | [] => false))

/-- Model of `extract_name_heuristic`: split the text on newlines, walk the
FIRST FIVE lines (`lines[:5]`), strip each, and return the first one
passing `nameLineOk`; else `"N/A"`. -/
def extract_name_heuristic (text : String) : String :=
  match (splitLines text.toList).take 5 |>.find? (fun l => nameLineOk (strip l)) with
  | some l => String.mk (strip l)
  | none => "N/A"

/-! ### Consensus resolvers (enhanced_extraction.py lines 105-138)

A Python value that is either a string or `None` is `Option String`
(`none` = Python `None`); the structured parser can supply `None`, and
Python's `x != "N/A"` is `True` for `None`. -/

/-- A Python variable holding a string or `None`. -/
abbrev PyVal := Option String

/-- The `"N/A"` sentinel as a `PyVal`. -/
def NA : PyVal := some "N/A"

/-- Model of `get_best_name(name_pyr, name_regex, name_spacy)`: drop `"N/A"`
candidates; if none remain return `"N/A"`; else return the first valid
candidate occurring more than once among the valid candidates; else
prefer parser > spaCy > regex. -/
def get_best_name (name_pyr name_regex name_spacy : PyVal) : PyVal :=
  let candidates := [name_pyr, name_regex, name_spacy]
  let valid_candidates := candidates.filter (fun n => n ≠ NA)
  if valid_candidates.isEmpty then NA
  else
    match valid_candidates.find?
        (fun c => decide (valid_candidates.count c > 1)) with
    | some c => c
    | none =>
      if name_pyr ≠ NA then name_pyr
      else if name_spacy ≠ NA then name_spacy
      else name_regex

/-- The `for email in candidates` loop body of `get_best_email`. -/
def bestEmailScan (valid : String → Bool) : List PyVal → Option String
  | [] => some "N/A"
  | c :: rest =>
    if c = NA then bestEmailScan valid rest
    else
      match c with
      | some e => if valid e then some e else bestEmailScan valid rest
      | none => none

/-- Model of `get_best_email(email_pyr, email_regex, email_spacy)`: scan the
candidates in that order; skip `"N/A"`; return the first candidate
passing the external syntactic validator (`validate_email`, modelled by
the boolean oracle `valid`); else `"N/A"`.  A `None` candidate makes
`validate_email` raise an uncaught `TypeError`, modelled as `none`. -/
def get_best_email (valid : String → Bool)
    (email_pyr email_regex email_spacy : PyVal) : Option String :=
  bestEmailScan valid [email_pyr, email_regex, email_spacy]

/-! ### Regex strategy (`extract_entities_regex`, lines 52-68)

Phone pattern: `(?:\+?1[-.\s]?)?\(?([0-9]{3})\)?[-.\s]?([0-9]{3})[-.\s]?([0-9]{4})`.
All the optional one-character pieces are followed by something that can
never match them, so consume-if-present equals backtracking; the one
genuine alternation is the whole optional country-code group (its `1` is
a digit), handled with `<|>`. -/

/-- A `[-.\s]?` separator: consume one `-`, `.` or whitespace if present. -/
def sepOptChar : List Char → List Char
  | [] => []
  | c :: t => if c = '-' || c = '.' || isWsChar c then t else c :: t

/-- Class `[0-9]{n}`: exactly `n` digits, captured. -/
def digitsExactly : Nat → List Char → Option (List Char × List Char)
  | 0, cs => some ([], cs)
  | _ + 1, [] => none
  | n + 1, c :: t =>
    if isDigitChar c then (digitsExactly n t).map (fun p => (c :: p.1, p.2))
    else none

/-- Core `\(?([0-9]{3})\)?[-.\s]?([0-9]{3})[-.\s]?([0-9]{4})`. -/
def phoneCore (cs : List Char) :
    Option ((List Char × List Char × List Char) × List Char) :=
  match digitsExactly 3 (optChar '(' cs) with
  | none => none
  | some (g1, cs2) =>
    match digitsExactly 3 (sepOptChar (optChar ')' cs2)) with
    | none => none
    | some (g2, cs4) =>
      match digitsExactly 4 (sepOptChar cs4) with
      | none => none
      | some (g3, cs6) => some ((g1, g2, g3), cs6)

/-- The optional country-code group `(?:\+?1[-.\s]?)?`: when it
matches, the remainder it leaves. -/
def countryCodeOpt (cs : List Char) : Option (List Char) :=
  match optChar '+' cs with
  | '1' :: t => some (sepOptChar t)
  | _ => none

/-- The full phone pattern at one position: try the optional
country-code group greedily, then fall back to the bare core. -/
def matchPhoneAt (cs : List Char) :
    Option ((List Char × List Char × List Char) × List Char) :=
  (match countryCodeOpt cs with
   | some cs1 => phoneCore cs1
   | none => none) <|> phoneCore cs

/-- Python `re.findall(phone_pattern, text)[0]`: scan left to right, return the
first match's three capture groups. -/
def findPhoneFrom : List Char → Option (List Char × List Char × List Char)
  | [] =>
    match matchPhoneAt [] with
    | some (g, _) => some g
    | none => none
  | c :: t =>
    match matchPhoneAt (c :: t) with
    | some (g, _) => some g
    | none => findPhoneFrom t

/-- Python `'-'.join(phones[0]) if phones else "N/A"`. -/
def regexPhoneFirst (text : String) : String :=
  match findPhoneFrom text.toList with
  | some (g1, g2, g3) => String.mk (g1 ++ '-' :: g2 ++ '-' :: g3)
  | none => "N/A"

/-! Email pattern: `\b[A-Za-z0-9._%+-]+@[A-Za-z0-9.-]+\.[A-Z|a-z]{2,}\b`
(the `|` inside the last class is a literal character, as in the
source).  The local-part class cannot contain `@`, so it is maximal
munch; the domain and TLD runs genuinely backtrack and are tried from
longest to shortest. -/

/-- Python `\w` (ASCII): letters, digits, underscore. -/
def isWordChar (c : Char) : Bool := isAlphaChar c || isDigitChar c || c = '_'

/-- Boundary `\b` between an optional previous and next character. -/
def boundaryOk (a b : Option Char) : Bool :=
  (match a with | some c => isWordChar c | none => false) ≠
    (match b with | some c => isWordChar c | none => false)

def emailLocalChar (c : Char) : Bool :=
  isAlphaChar c || isDigitChar c || c = '.' || c = '_' || c = '%' ||
    c = '+' || c = '-'

def emailDomainChar (c : Char) : Bool :=
  isAlphaChar c || isDigitChar c || c = '.' || c = '-'

def emailTldChar (c : Char) : Bool := isAlphaChar c || c = '|'

/-- Maximal run of a character class, with its remainder. -/
def takeClass (cls : Char → Bool) : List Char → List Char × List Char
  | [] => ([], [])
  | c :: t =>
    if cls c then
      let (r, rest) := takeClass cls t
      (c :: r, rest)
    else ([], c :: t)

/-- All `(prefix, rest)` splits of a leading class run, shortest first. -/
def classPrefixes (cls : Char → Bool) : List Char → List (List Char × List Char)
  | [] => [([], [])]
  | c :: t =>
    if cls c then
      ([], c :: t) :: (classPrefixes cls t).map (fun p => (c :: p.1, p.2))
    else [([], c :: t)]

/-- The email pattern at one position (`prev` is the character before
the position, for the leading `\b`). -/
def matchEmailAt (prev : Option Char) (cs : List Char) :
    Option (List Char × List Char) :=
  if ¬boundaryOk prev cs.head? then none
  else
    let (l1, cs1) := takeClass emailLocalChar cs
    if l1.isEmpty then none
    else
      match cs1 with
      | '@' :: cs2 =>
        (classPrefixes emailDomainChar cs2).reverse.findSome? (fun p2 =>
          if p2.1.isEmpty then none
          else
            match p2.2 with
            | '.' :: cs4 =>
              (classPrefixes emailTldChar cs4).reverse.findSome? (fun p3 =>
                if p3.1.length < 2 then none
                else if boundaryOk p3.1.getLast? p3.2.head? then
                  some (l1 ++ '@' :: p2.1 ++ '.' :: p3.1, p3.2)
                else none)
            | _ => none)
      | _ => none

/-- Python `re.findall(email_pattern, text)[0]`: first email match, scanning
left to right with the previous character threaded for `\b`. -/
def findEmailFrom (prev : Option Char) : List Char → Option (List Char)
  | [] =>
    match matchEmailAt prev [] with
    | some (m, _) => some m
    | none => none
  | c :: t =>
    match matchEmailAt prev (c :: t) with
    | some (m, _) => some m
    | none => findEmailFrom (some c) t

/-- Python `emails[0] if emails else "N/A"`. -/
def regexEmailFirst (text : String) : String :=
  match findEmailFrom none text.toList with
  | some m => String.mk m
  | none => "N/A"

/-- Model of `extract_entities_regex`: returns `(name, email, phone)`. -/
def extract_entities_regex (text : String) : String × String × String :=
  (extract_name_heuristic text, regexEmailFirst text, regexPhoneFirst text)

/-! ### Structured-parser and NER strategies (lines 41-50, 86-103)

Both delegate to external services, modelled as oracle inputs. -/

/-- The view of the external `ResumeParser(...).get_extracted_data()`
mapping that the code reads: for each key, `none` = key absent,
`some v` = key present with value `v` (which Python allows to be
`None`, i.e. `v = none`). -/
structure PyreData where
  nameVal : Option PyVal
  emailVal : Option PyVal

/-- Model of `extract_entities_pyresparser`: `data.get(key, "N/A")` — the
default applies only when the key is absent; a present `None` value is
returned as-is.  An exception from the parser (outer `none`) yields
`("N/A", "N/A")`. -/
def extract_entities_pyresparser (res : Option PyreData) : PyVal × PyVal :=
  match res with
  | none => (NA, NA)
  | some d => (d.nameVal.getD NA, d.emailVal.getD NA)

/-- The view of a spaCy document the code reads: entities as
`(ent.text, ent.label_)` pairs and word-level token texts. -/
structure NerDoc where
  ents : List (String × String)
  tokens : List String

/-- Model of `extract_entities_spacy`: `("N/A","N/A")` when the model is
unavailable; else the first PERSON entity and the first token
containing both `@` and `.`. -/
def extract_entities_spacy (doc : Option NerDoc) : String × String :=
  match doc with
  | none => ("N/A", "N/A")
  | some d =>
    let names := (d.ents.filter (fun e => e.2 = "PERSON")).map Prod.fst
    let emails := d.tokens.filter (fun t =>
      containsSub ['@'] t.toList && containsSub ['.'] t.toList)
    (names.headD "N/A", emails.headD "N/A")

/-- Model of `extract_entities_multi_approach`: run the three strategies, then
the consensus resolvers; the phone is the regex strategy's verbatim.
`none` = an uncaught exception escaped (only `get_best_email` can
raise here, on a `None` candidate). -/
def extract_entities_multi_approach (parser : Option PyreData)
    (ner : Option NerDoc) (valid : String → Bool) (resume_text : String) :
    Option (PyVal × String × String) :=
  let (name_pyr, email_pyr) := extract_entities_pyresparser parser
  let (name_regex, email_regex, phone_regex) := extract_entities_regex resume_text
  let (name_spacy, email_spacy) := extract_entities_spacy ner
  let final_name := get_best_name name_pyr (some name_regex) (some name_spacy)
  match get_best_email valid email_pyr (some email_regex) (some email_spacy) with
  | none => none
  | some final_email => some (final_name, final_email, phone_regex)

/-! ### `enhanced_similarity_scoring` (app.py lines 34-62)

Real arithmetic (Python floats) is modelled over `ℚ`; the external
TF-IDF/cosine-similarity value for the two-document corpus is the
oracle argument `basicSim`. -/

/-- Model of `enhanced_similarity_scoring`.  In the source, `matching_skills` is
assigned only inside the `if job_skills:` branch but is read
unconditionally in the `return` statement, so when `job_skills` is
empty the function raises `UnboundLocalError`; that exception is
modelled as `none`.  Returns `(final_score*100, len(matching_skills),
len(set(job_skills)))`. -/
def enhanced_similarity_scoring (basicSim : ℚ)
    (job_description resume_text : String)
    (skills_weight : ℚ) : Option (ℚ × Nat × Nat) :=
  let job_skills := extract_skills job_description
  let resume_skills := extract_skills resume_text
  if job_skills.isEmpty then none
  else
    let jobSet := job_skills.dedup
    let matching_skills := jobSet.filter (fun s => s ∈ resume_skills)
    let skills_score : ℚ := matching_skills.length / jobSet.length
    let final_score := (1 - skills_weight) * basicSim + skills_weight * skills_score
    some (final_score * 100, matching_skills.length, jobSet.length)

/-! ### Batch ranking pipeline (app.py lines 65-155) -/

/-- Python `round(x, 2)` over the rational model (rounding mode
differences with float banker's rounding are irrelevant to the claims,
which never depend on midpoint values). -/
def round2 (q : ℚ) : ℚ := (round (q * 100) : ℤ) / 100

/-- Python `round(x, 1)`. -/
def round1 (q : ℚ) : ℚ := (round (q * 10) : ℤ) / 10

/-- Python `str.lower` at `String` type. -/
def lowerString (s : String) : String := String.mk (lowerStr s.toList)

/-- One uploaded resume together with the responses of the external
services for it (PDF text extraction, structured parser, NER model). -/
structure ResumeInput where
  filename : String
  text : String
  parser : Option PyreData
  ner : Option NerDoc

/-- The `scanned_resumes` per-file record built in the upload loop. -/
structure ScannedResume where
  filename : String
  name : PyVal
  email : String
  phone : String
  skills : List String
  experience_years : Nat
  resume_text : String

/-- A row of `ranked_resumes`. -/
structure RankedEntry where
  name : PyVal
  email : String
  phone : String
  similarity_score : ℚ
  matching_skills : Nat
  total_job_skills : Nat
  skills_match_rate : ℚ
  experience_years : Nat
  top_skills : List String
  filename : String

/-- The upload loop of `index`: an empty/whitespace-only extracted text
records `"Could not extract text from {filename}"` and skips the
resume; an exception inside the `try` block (here: the email resolver
crashing on a `None` candidate) records `"Error processing {filename}"`
(the Python message also carries the exception text) and skips; else a
`ScannedResume` is appended, with the text stored lowercased. -/
def scanResumes (valid : String → Bool) :
    List ResumeInput → List ScannedResume × List String
  | [] => ([], [])
  | r :: rest =>
    if (strip r.text.toList).isEmpty then
      let (ss, es) := scanResumes valid rest
      (ss, ("Could not extract text from " ++ r.filename) :: es)
    else
      match extract_entities_multi_approach r.parser r.ner valid r.text with
      | none =>
        let (ss, es) := scanResumes valid rest
        (ss, ("Error processing " ++ r.filename) :: es)
      | some (n, e, p) =>
        let (ss, es) := scanResumes valid rest
        ({ filename := r.filename, name := n, email := e, phone := p,
           skills := extract_skills r.text,
           experience_years := extract_experience_years r.text,
           resume_text := lowerString r.text } :: ss, es)

/-- The ranking loop body: score one scanned resume against the
(lowercased) job description and build its `RankedEntry`.  `none`
propagates the `UnboundLocalError` of the scorer. -/
def rankOne (sim : String → String → ℚ) (job : String)
    (s : ScannedResume) : Option RankedEntry :=
  match enhanced_similarity_scoring (sim job s.resume_text) job s.resume_text
      (3 / 10) with
  | none => none
  | some (score, m, t) =>
    some { name := s.name, email := s.email, phone := s.phone,
           similarity_score := round2 score,
           matching_skills := m, total_job_skills := t,
           skills_match_rate :=
             round1 (if 0 < t then (m : ℚ) / t * 100 else 0),
           experience_years := s.experience_years,
           top_skills := s.skills.take 10,
           filename := s.filename }

/-- The `for resume_data in scanned_resumes` ranking loop: builds the
entries in order; an exception in any call aborts the request. -/
def rankAll (sim : String → String → ℚ) (job : String) :
    List ScannedResume → Option (List RankedEntry)
  | [] => some []
  | s :: rest =>
    match rankOne sim job s with
    | none => none
    | some e =>
      match rankAll sim job rest with
      | none => none
      | some es => some (e :: es)

/-- Stable insert for descending order: `x` goes before the first
element whose key is at most `key x` (so before equal keys coming from
later input positions). -/
def insertDesc {α : Type} (key : α → ℚ) (x : α) : List α → List α
  | [] => [x]
  | y :: t => if key y ≤ key x then x :: y :: t else y :: insertDesc key x t

/-- Python `list.sort(key=..., reverse=True)`: CPython's Timsort with
`reverse=True` is a stable descending sort by the key; modelled as
stable insertion sort, which has the same input/output relation. -/
def pySortDesc {α : Type} (key : α → ℚ) : List α → List α
  | [] => []
  | x :: t => insertDesc key x (pySortDesc key t)

/-- The POST branch of `index`: lowercase the job description, run the
upload loop, score every scanned resume, sort descending by
`similarity_score`, and return the sorted entries together with the
accumulated processing errors.  `none` = an unhandled exception aborts
the request (the scorer's `UnboundLocalError`, raised outside the
per-resume `try`). -/
def runBatch (valid : String → Bool) (sim : String → String → ℚ)
    (job_description : String) (resumes : List ResumeInput) :
    Option (List RankedEntry × List String) :=
  let job := lowerString job_description
  let (scanned, errs) := scanResumes valid resumes
  match rankAll sim job scanned with
  | none => none
  | some ranked => some (pySortDesc (fun e => e.similarity_score) ranked, errs)

/-! ### Spec-side definition for the name-consensus refinement claim -/

/-- The claim's description of name resolution, stated in its own
words over plain strings: discard `"N/A"` entries; if no candidate
remains return `"N/A"`; if any remaining value occurs more than once
return the first such value in input-order scan; otherwise fall back to
parser, then NER, then regex. -/
def resolveNameSpec (parser regex ner : String) : String :=
  let valid := [parser, regex, ner].filter (fun n => n ≠ "N/A")
  if valid.isEmpty then "N/A"
  else
    match valid.find? (fun v => decide (1 < valid.count v)) with
    | some v => v
    | none =>
      if parser ≠ "N/A" then parser
      else if ner ≠ "N/A" then ner
      else regex

/-! ### Concrete sample data used by witnesses -/

/-- A `RankedEntry` with a given score (other fields fixed). -/
def sampleRanked (q : ℚ) : RankedEntry :=
  { name := NA, email := "N/A", phone := "N/A", similarity_score := q,
    matching_skills := 0, total_job_skills := 1, skills_match_rate := 0,
    experience_years := 0, top_skills := [], filename := "a.pdf" }

/-- A submission-tagged list with a score tie between positions 0, 1. -/
def c6TaggedList : List (Nat × RankedEntry) :=
  [(0, sampleRanked 1), (1, sampleRanked 1), (2, sampleRanked 2)]

/-- A 3-resume batch whose second resume has whitespace-only text. -/
def c9Batch : List ResumeInput :=
  [{ filename := "a.pdf", text := "python developer", parser := none, ner := none },
   { filename := "b.pdf", text := "   ", parser := none, ner := none },
   { filename := "c.pdf", text := "java dev", parser := none, ner := none }]

/-! ## Theorems -/

/-- C7: for every input text, `extract_skills` lists exactly the
dictionary tokens occurring as substrings of the lowercased text, in
dictionary-category then within-category order; each token appears at
most once (the output is duplicate-free), so the output length is at
most the total number of dictionary entries. -/
theorem C7_extract_skills_order_nodup_bound (text : String) :
    extract_skills text =
      (skills_database.flatMap Prod.snd).filter
        (fun s => containsSub s.toList (lowerStr text.toList)) ∧
    (extract_skills text).Nodup ∧
    (extract_skills text).length ≤ allSkills.length := by
  have hdef : extract_skills text =
      allSkills.filter (fun s => containsSub s.toList (lowerStr text.toList)) := rfl
  refine ⟨rfl, ?_, ?_⟩
  · rw [hdef]
    exact (show allSkills.Nodup by decide).filter _
  · rw [hdef]
    exact List.length_filter_le _ _

/-- C2 (code bug): when the job description yields no dictionary
skills, `enhanced_similarity_scoring` does not return normally with
`matchingSkillsCount = 0`: in the source `matching_skills` is assigned
only inside the `if job_skills:` branch yet is read unconditionally in
the `return` statement, so the call raises `UnboundLocalError`
(modelled as `none`).  Evaluated here at a failing input. -/
theorem C2_empty_job_skills_raises :
    extract_skills "hello world" = [] ∧
    enhanced_similarity_scoring (1 / 2) "hello world" "python developer" (3 / 10) =
      none := by
  constructor
  · decide
  · decide

/-- C3 (code bug): the pipeline's final name is not always `"N/A"` or
a non-null string: when the structured parser's mapping carries key
`"name"` with value `None`, `data.get("name", "N/A")` returns `None`,
`None != "N/A"` keeps it a valid candidate, and the priority fallback
returns it, so `extract_entities_multi_approach` yields a `None`
(`Option.none`) final name, which is neither `"N/A"` nor any string. -/
theorem C3_final_name_can_be_none :
    extract_entities_multi_approach
        (some { nameVal := some none, emailVal := some NA })
        (some { ents := [], tokens := [] }) (fun _ => false) "" =
      some (none, "N/A", "N/A") ∧
    (∀ s : String, (none : PyVal) ≠ some s) := by
  constructor
  · decide
  · intro s h
    exact Option.noConfusion h

/-- C1 (counterexample): on the spec's own example text the code
returns 5, not 10 — the match of the first pattern
(`5 years of experience`) short-circuits pattern two, whose `10` is
never collected. -/
theorem C1_example_returns_five :
    extract_experience_years "5 years of experience and 10 years in management" = 5 ∧
    extract_experience_years "5 years of experience and 10 years in management" ≠ 10 := by
  constructor <;> decide

/-- C1 (amended): `extract_experience_years` applies the three regex
patterns in fixed order and returns the maximum over the matches of the
FIRST pattern that has any match (later patterns are not consulted);
it returns 0 when no pattern matches; on "5 years of experience and 10
years in management" it returns 5. -/
theorem C1_first_matching_pattern_wins :
    (∀ text : String, findall matchP1At (lowerStr text.toList) ≠ [] →
        extract_experience_years text =
          maxNat (findall matchP1At (lowerStr text.toList))) ∧
    (∀ text : String, findall matchP1At (lowerStr text.toList) = [] →
        findall matchP2At (lowerStr text.toList) ≠ [] →
        extract_experience_years text =
          maxNat (findall matchP2At (lowerStr text.toList))) ∧
    (∀ text : String, findall matchP1At (lowerStr text.toList) = [] →
        findall matchP2At (lowerStr text.toList) = [] →
        findall matchP3At (lowerStr text.toList) ≠ [] →
        extract_experience_years text =
          maxNat (findall matchP3At (lowerStr text.toList))) ∧
    (∀ text : String, findall matchP1At (lowerStr text.toList) = [] →
        findall matchP2At (lowerStr text.toList) = [] →
        findall matchP3At (lowerStr text.toList) = [] →
        extract_experience_years text = 0) ∧
    extract_experience_years "5 years of experience and 10 years in management" = 5 := by
  refine ⟨?_, ?_, ?_, ?_, by decide⟩
  · intro text h1
    simp only [String.toList] at h1 ⊢
    simp [extract_experience_years, List.isEmpty_iff, h1]
  · intro text h1 h2
    simp only [String.toList] at h1 h2 ⊢
    simp [extract_experience_years, List.isEmpty_iff, h1, h2]
  · intro text h1 h2 h3
    simp only [String.toList] at h1 h2 h3 ⊢
    simp [extract_experience_years, List.isEmpty_iff, h1, h2, h3]
  · intro text h1 h2 h3
    simp only [String.toList] at h1 h2 h3 ⊢
    simp [extract_experience_years, List.isEmpty_iff, h1, h2, h3]

/-- Witness for C1's amended theorem at the spec's example text. -/
theorem C1_witness :
    extract_experience_years "5 years of experience and 10 years in management" = 5 :=
  (C1_first_matching_pattern_wins.1 _ (by decide)).trans (by decide)

/-- C5: `get_best_email` scans the candidates in the fixed priority
order (structured parser, regex, NER), skips `"N/A"`, and returns the
first candidate passing syntactic validation, else `"N/A"`; validity
gates selection with no majority vote, so a valid lower-priority
candidate is chosen whenever every higher-priority one is `"N/A"` or
fails validation. -/
theorem C5_email_priority_validation (valid : String → Bool) (a b c : String) :
    get_best_email valid (some a) (some b) (some c) =
      some (if a ≠ "N/A" && valid a then a
            else if b ≠ "N/A" && valid b then b
            else if c ≠ "N/A" && valid c then c
            else "N/A") := by
  simp only [get_best_email, bestEmailScan, NA]
  by_cases ha : a = "N/A" <;> by_cases hb : b = "N/A" <;> by_cases hc : c = "N/A" <;>
    cases hva : valid a <;> cases hvb : valid b <;> cases hvc : valid c <;>
      simp [ha, hb, hc, hva, hvb, hvc, bestEmailScan]

/-- C8 (counterexample): on a text whose first five raw lines are
empty, the code returns `"N/A"` even though the first NON-empty line
(`"John Smith"`, line 6) qualifies under the heuristic — the code walks
`lines[:5]`, the first five lines of the split, not the first five
non-empty lines. -/
theorem C8_blank_leading_lines :
    extract_name_heuristic "\n\n\n\n\nJohn Smith" = "N/A" ∧
    ((splitLines "\n\n\n\n\nJohn Smith".toList).filter
        (fun l => ¬(strip l).isEmpty)).head? = some "John Smith".toList ∧
    nameLineOk (strip "John Smith".toList) = true := by
  refine ⟨by decide, by decide, by decide⟩

/-- C8 (amended): the heuristic examines the first 5 lines of the text
(after splitting on newline, empty or whitespace-only ones among them
simply not qualifying), strips each, and returns the first stripped
line with no digit, 2-4 whitespace-separated tokens, all tokens purely
alphabetic with uppercase first characters; else `"N/A"`. -/
theorem C8_first_five_raw_lines (text : String) :
    extract_name_heuristic text =
      (((((splitLines text.toList).take 5).map strip).find? nameLineOk).map
        String.mk).getD "N/A" := by
  unfold extract_name_heuristic
  rw [List.find?_map]
  have hc : (nameLineOk ∘ strip) = (fun l => nameLineOk (strip l)) := rfl
  rw [hc]
  cases h : List.find? (fun l => nameLineOk (strip l))
      ((splitLines text.toList).take 5) <;> simp [String.mk]

/-- C4: `get_best_name` implements exactly the claimed resolution: drop
`"N/A"` candidates; `"N/A"` when none remain; else the first candidate
value (in input-order scan) occurring more than once among the valid
candidates; else the parser result if valid, else the NER result if
valid, else the regex result.  (Argument order of the source:
`(name_pyr, name_regex, name_spacy)`.) -/
theorem C4_resolve_name_refines (a b c : String) :
    get_best_name (some a) (some b) (some c) = some (resolveNameSpec a b c) := by
  have hfil : ([some a, some b, some c].filter (fun n => n ≠ NA))
      = ([a, b, c].filter (fun n => n ≠ "N/A")).map some := by
    by_cases ha : a = "N/A" <;> by_cases hb : b = "N/A" <;> by_cases hc : c = "N/A" <;>
      simp [ha, hb, hc, NA]
  have hfall : (if some a ≠ NA then some a
                else if some c ≠ NA then some c else some b)
      = some (if a ≠ "N/A" then a else if c ≠ "N/A" then c else b) := by
    by_cases ha : a = "N/A" <;> by_cases hc : c = "N/A" <;> simp [ha, hc, NA]
  simp only [get_best_name, resolveNameSpec, hfil]
  generalize ([a, b, c].filter (fun n => n ≠ "N/A")) = Lv
  cases Lv with
  | nil => simp [NA]
  | cons x t =>
    rw [List.find?_map]
    have hcount : ∀ (v : String) (l : List String),
        List.count (some v) (l.map some) = List.count v l := by
      intro v l
      induction l with
      | nil => rfl
      | cons y s ih => simp [List.count_cons, ih, beq_iff_eq]
    have hpred : ((fun v : PyVal => decide (1 < List.count v ((x :: t).map some))) ∘ some)
        = fun v : String => decide (1 < List.count v (x :: t)) := by
      funext v
      rw [Function.comp_apply, hcount]
    simp only [gt_iff_lt, hpred]
    cases hf : List.find? (fun v => decide (1 < List.count v (x :: t))) (x :: t) with
    | some v => simp
    | none => simpa using hfall

/-- Helper: `digitsExactly n` only succeeds with a captured group of
exactly `n` digit characters. -/
theorem digitsExactly_spec : ∀ (n : Nat) (cs g r : List Char),
    digitsExactly n cs = some (g, r) →
    g.length = n ∧ g.all isDigitChar = true := by
  intro n
  induction n with
  | zero =>
    intro cs g r h
    unfold digitsExactly at h
    cases h
    exact ⟨rfl, rfl⟩
  | succ n ih =>
    intro cs g r h
    cases cs with
    | nil => exact absurd h (by simp [digitsExactly])
    | cons c t =>
      unfold digitsExactly at h
      by_cases hd : isDigitChar c
      · rw [if_pos hd, Option.map_eq_some'] at h
        obtain ⟨⟨g', r'⟩, hg', heq⟩ := h
        obtain ⟨h1, h2⟩ := ih t g' r' hg'
        cases heq
        exact ⟨by simp [h1], by simp [List.all_cons, hd, h2]⟩
      · rw [if_neg hd] at h
        exact absurd h (by simp)

/-- Helper: a `phoneCore` match captures groups of 3, 3 and 4 digits. -/
theorem phoneCore_groups (cs g1 g2 g3 r : List Char)
    (h : phoneCore cs = some ((g1, g2, g3), r)) :
    (g1.length = 3 ∧ g1.all isDigitChar = true) ∧
    (g2.length = 3 ∧ g2.all isDigitChar = true) ∧
    (g3.length = 4 ∧ g3.all isDigitChar = true) := by
  unfold phoneCore at h
  cases h1 : digitsExactly 3 (optChar '(' cs) with
  | none => rw [h1] at h; cases h
  | some p1 =>
    obtain ⟨d1, s1⟩ := p1
    rw [h1] at h
    dsimp only at h
    cases h2 : digitsExactly 3 (sepOptChar (optChar ')' s1)) with
    | none => rw [h2] at h; cases h
    | some p2 =>
      obtain ⟨d2, s2⟩ := p2
      rw [h2] at h
      dsimp only at h
      cases h3 : digitsExactly 4 (sepOptChar s2) with
      | none => rw [h3] at h; cases h
      | some p3 =>
        obtain ⟨d3, s3⟩ := p3
        rw [h3] at h
        dsimp only at h
        cases h
        exact ⟨digitsExactly_spec 3 _ _ _ h1, digitsExactly_spec 3 _ _ _ h2,
          digitsExactly_spec 4 _ _ _ h3⟩

/-- Helper: every `matchPhoneAt` match is a `phoneCore` match on some
remainder. -/
theorem matchPhoneAt_core (cs : List Char)
    (v : (List Char × List Char × List Char) × List Char)
    (h : matchPhoneAt cs = some v) : ∃ cs', phoneCore cs' = some v := by
  unfold matchPhoneAt at h
  cases hc : countryCodeOpt cs with
  | none =>
    rw [hc, Option.none_orElse] at h
    exact ⟨cs, h⟩
  | some cs1 =>
    rw [hc] at h
    dsimp only at h
    cases hp : phoneCore cs1 with
    | none =>
      rw [hp, Option.none_orElse] at h
      exact ⟨cs, h⟩
    | some w =>
      rw [hp, Option.some_orElse] at h
      exact ⟨cs1, by rw [hp, h]⟩

/-- Helper: every phone found by the left-to-right scan comes from a
`phoneCore` match. -/
theorem findPhoneFrom_core : ∀ (cs : List Char)
    (g : List Char × List Char × List Char),
    findPhoneFrom cs = some g →
    ∃ cs' r, phoneCore cs' = some (g, r) := by
  intro cs
  induction cs with
  | nil =>
    intro g h
    unfold findPhoneFrom at h
    cases hm : matchPhoneAt [] with
    | none => rw [hm] at h; cases h
    | some v =>
      rw [hm] at h
      cases h
      obtain ⟨cs', hc⟩ := matchPhoneAt_core [] v hm
      exact ⟨cs', v.2, by rw [hc]⟩
  | cons c t ih =>
    intro g h
    unfold findPhoneFrom at h
    cases hm : matchPhoneAt (c :: t) with
    | none => rw [hm] at h; exact ih g h
    | some v =>
      rw [hm] at h
      cases h
      obtain ⟨cs', hc⟩ := matchPhoneAt_core (c :: t) v hm
      exact ⟨cs', v.2, by rw [hc]⟩

/-- C10: the phone value produced by the multi-approach extraction is
taken verbatim from the regex strategy, and is either `"N/A"` or three
hyphen-joined digit groups of sizes 3, 3 and 4 (`ddd-ddd-dddd`),
whatever separators, parentheses or country-code prefix the text had. -/
theorem C10_phone_normalized :
    (∀ text : String, regexPhoneFirst text = "N/A" ∨
      ∃ g1 g2 g3 : List Char, g1.length = 3 ∧ g2.length = 3 ∧ g3.length = 4 ∧
        g1.all isDigitChar = true ∧ g2.all isDigitChar = true ∧
        g3.all isDigitChar = true ∧
        regexPhoneFirst text = String.mk (g1 ++ '-' :: g2 ++ '-' :: g3)) ∧
    (∀ (parser : Option PyreData) (ner : Option NerDoc) (valid : String → Bool)
        (text : String) (n : PyVal) (e p : String),
        extract_entities_multi_approach parser ner valid text = some (n, e, p) →
        p = regexPhoneFirst text) := by
  constructor
  · intro text
    unfold regexPhoneFirst
    cases hf : findPhoneFrom text.toList with
    | none => exact Or.inl rfl
    | some g =>
      right
      obtain ⟨g1, g2, g3⟩ := g
      obtain ⟨cs', r, hc⟩ := findPhoneFrom_core _ _ hf
      obtain ⟨⟨l1, a1⟩, ⟨l2, a2⟩, ⟨l3, a3⟩⟩ := phoneCore_groups _ _ _ _ _ hc
      exact ⟨g1, g2, g3, l1, l2, l3, a1, a2, a3, rfl⟩
  · intro parser ner valid text n e p h
    unfold extract_entities_multi_approach at h
    rcases hpp : extract_entities_pyresparser parser with ⟨np, ep⟩
    rcases hps : extract_entities_spacy ner with ⟨ns, es⟩
    rw [hpp, hps] at h
    dsimp only [extract_entities_regex] at h
    cases hge : get_best_email valid ep
        (some (regexEmailFirst text)) (some es) with
    | none => rw [hge] at h; cases h
    | some e' =>
      rw [hge] at h
      cases h
      rfl

/-- Witness for C10 at a concrete text containing a phone number. -/
theorem C10_witness :
    (regexPhoneFirst "call 123-456-7890" = "N/A" ∨
      ∃ g1 g2 g3 : List Char, g1.length = 3 ∧ g2.length = 3 ∧ g3.length = 4 ∧
        g1.all isDigitChar = true ∧ g2.all isDigitChar = true ∧
        g3.all isDigitChar = true ∧
        regexPhoneFirst "call 123-456-7890" =
          String.mk (g1 ++ '-' :: g2 ++ '-' :: g3)) ∧
    "123-456-7890" = regexPhoneFirst "call 123-456-7890" :=
  ⟨C10_phone_normalized.1 "call 123-456-7890",
   C10_phone_normalized.2 none none (fun _ => true) "call 123-456-7890"
     (some "N/A") "N/A" "123-456-7890" (by decide)⟩

/-- Helper: membership after a stable descending insert. -/
theorem insertDesc_mem {α : Type} (key : α → ℚ) (x y : α) :
    ∀ l : List α, y ∈ insertDesc key x l → y = x ∨ y ∈ l := by
  intro l
  induction l with
  | nil =>
    intro h
    simp [insertDesc] at h
    exact Or.inl h
  | cons z t ih =>
    intro h
    unfold insertDesc at h
    by_cases hk : key z ≤ key x
    · rw [if_pos hk] at h
      rcases List.mem_cons.mp h with h1 | h1
      · exact Or.inl h1
      · exact Or.inr h1
    · rw [if_neg hk] at h
      rcases List.mem_cons.mp h with h1 | h1
      · exact Or.inr (h1 ▸ List.mem_cons_self z t)
      · rcases ih h1 with h2 | h2
        · exact Or.inl h2
        · exact Or.inr (List.mem_cons_of_mem z h2)

/-- Helper: a stable descending insert is a permutation of consing. -/
theorem insertDesc_perm {α : Type} (key : α → ℚ) (x : α) :
    ∀ l : List α, (insertDesc key x l).Perm (x :: l) := by
  intro l
  induction l with
  | nil => exact List.Perm.refl _
  | cons z t ih =>
    unfold insertDesc
    by_cases hk : key z ≤ key x
    · rw [if_pos hk]
    · rw [if_neg hk]
      exact (ih.cons z).trans (List.Perm.swap x z t)

/-- Helper: the modelled Python sort permutes its input. -/
theorem pySortDesc_perm {α : Type} (key : α → ℚ) :
    ∀ l : List α, (pySortDesc key l).Perm l := by
  intro l
  induction l with
  | nil => exact List.Perm.refl _
  | cons x t ih =>
    exact (insertDesc_perm key x (pySortDesc key t)).trans (ih.cons x)

/-- Helper: inserting into a descending-sorted list keeps it sorted. -/
theorem insertDesc_sorted {α : Type} (key : α → ℚ) (x : α) :
    ∀ l : List α, l.Pairwise (fun a b => key b ≤ key a) →
    (insertDesc key x l).Pairwise (fun a b => key b ≤ key a) := by
  intro l
  induction l with
  | nil => intro _; simp [insertDesc]
  | cons z t ih =>
    intro h
    unfold insertDesc
    rcases List.pairwise_cons.mp h with ⟨hz, ht⟩
    by_cases hk : key z ≤ key x
    · rw [if_pos hk]
      refine List.pairwise_cons.mpr ⟨?_, h⟩
      intro y hy
      rcases List.mem_cons.mp hy with h1 | h1
      · exact h1 ▸ hk
      · exact (hz y h1).trans hk
    · rw [if_neg hk]
      refine List.pairwise_cons.mpr ⟨?_, ih ht⟩
      intro y hy
      rcases insertDesc_mem key x y t hy with h1 | h1
      · exact h1 ▸ (le_of_lt (lt_of_not_le hk))
      · exact hz y h1

/-- Helper: the modelled Python sort yields a descending-sorted list. -/
theorem pySortDesc_sorted {α : Type} (key : α → ℚ) :
    ∀ l : List α,
    (pySortDesc key l).Pairwise (fun a b => key b ≤ key a) := by
  intro l
  induction l with
  | nil => simp [pySortDesc]
  | cons x t ih => exact insertDesc_sorted key x (pySortDesc key t) ih

/-- Helper: stability of the insert — with tags strictly increasing in
input order, the strengthened descending relation (strictly larger key,
or equal key and earlier tag) is preserved. -/
theorem insertDesc_stable {α : Type} (key : α → ℚ) (idx : α → Nat) (x : α) :
    ∀ l : List α,
    l.Pairwise (fun a b =>
      key b < key a ∨ (key a = key b ∧ idx a < idx b)) →
    (∀ y ∈ l, idx x < idx y) →
    (insertDesc key x l).Pairwise (fun a b =>
      key b < key a ∨ (key a = key b ∧ idx a < idx b)) := by
  intro l
  induction l with
  | nil => intro _ _; simp [insertDesc]
  | cons z t ih =>
    intro hl hx
    rcases List.pairwise_cons.mp hl with ⟨hz, ht⟩
    unfold insertDesc
    by_cases hk : key z ≤ key x
    · rw [if_pos hk]
      refine List.pairwise_cons.mpr ⟨?_, hl⟩
      intro y hy
      have hyx : key y ≤ key x := by
        rcases List.mem_cons.mp hy with h1 | h1
        · exact h1 ▸ hk
        · rcases hz y h1 with h2 | h2
          · exact (le_of_lt h2).trans hk
          · exact h2.1 ▸ hk
      rcases lt_or_eq_of_le hyx with h2 | h2
      · exact Or.inl h2
      · exact Or.inr ⟨h2.symm, hx y hy⟩
    · rw [if_neg hk]
      refine List.pairwise_cons.mpr
        ⟨?_, ih ht (fun y hy => hx y (List.mem_cons_of_mem z hy))⟩
      intro y hy
      rcases insertDesc_mem key x y t hy with h1 | h1
      · exact Or.inl (h1 ▸ lt_of_not_le hk)
      · exact hz y h1

/-- Helper: stability of the whole sort. -/
theorem pySortDesc_stable {α : Type} (key : α → ℚ) (idx : α → Nat) :
    ∀ l : List α, l.Pairwise (fun a b => idx a < idx b) →
    (pySortDesc key l).Pairwise (fun a b =>
      key b < key a ∨ (key a = key b ∧ idx a < idx b)) := by
  intro l
  induction l with
  | nil => intro _; simp [pySortDesc]
  | cons x t ih =>
    intro hl
    rcases List.pairwise_cons.mp hl with ⟨hx, ht⟩
    refine insertDesc_stable key idx x (pySortDesc key t) (ih ht) ?_
    intro y hy
    exact hx y ((pySortDesc_perm key t).mem_iff.mp hy)

/-- C6: the batch output is sorted in descending order of
`similarity_score`; and the sort used (Python's stable
`sort(reverse=True)`) is stable: on any input whose tags record
submission order, entries with equal scores stay in tag order. -/
theorem C6_ranking_sorted_stable :
    (∀ (valid : String → Bool) (sim : String → String → ℚ) (job : String)
        (rs : List ResumeInput) (out : List RankedEntry) (errs : List String),
        runBatch valid sim job rs = some (out, errs) →
        out.Pairwise (fun x y => y.similarity_score ≤ x.similarity_score)) ∧
    (∀ l : List (Nat × RankedEntry),
        l.Pairwise (fun x y => x.1 < y.1) →
        (pySortDesc (fun p => p.2.similarity_score) l).Perm l ∧
        (pySortDesc (fun p => p.2.similarity_score) l).Pairwise (fun x y =>
          y.2.similarity_score < x.2.similarity_score ∨
          (x.2.similarity_score = y.2.similarity_score ∧ x.1 < y.1))) := by
  constructor
  · intro valid sim job rs out errs h
    unfold runBatch at h
    rcases hs : scanResumes valid rs with ⟨scanned, errs'⟩
    rw [hs] at h
    dsimp only at h
    cases hr : rankAll sim (lowerString job) scanned with
    | none => rw [hr] at h; cases h
    | some ranked =>
      rw [hr] at h
      cases h
      exact pySortDesc_sorted (fun e => e.similarity_score) ranked
  · intro l hl
    exact ⟨pySortDesc_perm _ l,
      pySortDesc_stable (fun p => p.2.similarity_score) Prod.fst l hl⟩

/-- Witness for C6: the empty batch for the sortedness half, and a
concrete tagged list with a score tie for the stability half. -/
theorem C6_witness :
    ([] : List RankedEntry).Pairwise
      (fun x y => y.similarity_score ≤ x.similarity_score) ∧
    ((pySortDesc (fun p => p.2.similarity_score) c6TaggedList).Perm c6TaggedList ∧
      (pySortDesc (fun p => p.2.similarity_score) c6TaggedList).Pairwise (fun x y =>
        y.2.similarity_score < x.2.similarity_score ∨
        (x.2.similarity_score = y.2.similarity_score ∧ x.1 < y.1))) :=
  ⟨C6_ranking_sorted_stable.1 (fun _ => true) (fun _ _ => 0) "python" [] [] [] rfl,
   C6_ranking_sorted_stable.2 c6TaggedList (by decide)⟩

/-- Helper: the email scan only raises when some candidate is `None`. -/
theorem bestEmailScan_some (valid : String → Bool) :
    ∀ l : List PyVal, (∀ x ∈ l, x ≠ none) →
    ∃ e, bestEmailScan valid l = some e := by
  intro l
  induction l with
  | nil => exact fun _ => ⟨"N/A", rfl⟩
  | cons c t ih =>
    intro h
    rcases hc : c with _ | e
    · exact absurd rfl (hc ▸ h c (List.mem_cons_self c t))
    · unfold bestEmailScan
      by_cases hna : (some e : PyVal) = NA
      · rw [if_pos hna]
        exact ih (fun x hx => h x (List.mem_cons_of_mem c hx))
      · rw [if_neg hna]
        by_cases hv : valid e
        · exact ⟨e, by simp [hv]⟩
        · simpa [hv] using ih (fun x hx => h x (List.mem_cons_of_mem c hx))

/-- Helper: the multi-approach extraction returns normally whenever the
structured parser's email value is not `None`. -/
theorem multi_approach_some (parser : Option PyreData) (ner : Option NerDoc)
    (valid : String → Bool) (text : String)
    (h : (extract_entities_pyresparser parser).2 ≠ none) :
    ∃ v, extract_entities_multi_approach parser ner valid text = some v := by
  unfold extract_entities_multi_approach
  rcases hpp : extract_entities_pyresparser parser with ⟨np, ep⟩
  rcases hps : extract_entities_spacy ner with ⟨ns, es⟩
  dsimp only [extract_entities_regex]
  rw [hpp] at h
  obtain ⟨e, he⟩ := bestEmailScan_some valid
    [ep, some (regexEmailFirst text), some es]
    (by
      intro x hx
      rcases List.mem_cons.mp hx with h1 | h1
      · exact h1 ▸ h
      · rcases List.mem_cons.mp h1 with h2 | h2
        · simp [h2]
        · simp at h2
          simp [h2])
  rw [show get_best_email valid ep (some (regexEmailFirst text)) (some es)
      = bestEmailScan valid [ep, some (regexEmailFirst text), some es] from rfl]
  rw [he]
  exact ⟨_, rfl⟩

/-- Helper: `rankOne` returns normally when the job has skills. -/
theorem rankOne_some (sim : String → String → ℚ) (job : String)
    (s : ScannedResume) (h : extract_skills job ≠ []) :
    ∃ e, rankOne sim job s = some e := by
  unfold rankOne enhanced_similarity_scoring
  rw [if_neg (by simp [List.isEmpty_iff, h])]
  exact ⟨_, rfl⟩

/-- Helper: when the job has skills, the ranking loop returns one entry
per scanned resume. -/
theorem rankAll_length (sim : String → String → ℚ) (job : String)
    (h : extract_skills job ≠ []) :
    ∀ ss : List ScannedResume,
    ∃ ranked, rankAll sim job ss = some ranked ∧ ranked.length = ss.length := by
  intro ss
  induction ss with
  | nil => exact ⟨[], rfl, rfl⟩
  | cons s t ih =>
    obtain ⟨e, he⟩ := rankOne_some sim job s h
    obtain ⟨rk, hrk, hlen⟩ := ih
    refine ⟨e :: rk, ?_, by simp [hlen]⟩
    unfold rankAll
    rw [he, hrk]

/-- Helper: under the no-`None`-email condition, the upload loop keeps
exactly the resumes with non-blank extracted text and records exactly
one named error per blank-text resume. -/
theorem scanResumes_spec (valid : String → Bool) :
    ∀ rs : List ResumeInput,
    (∀ r ∈ rs, (extract_entities_pyresparser r.parser).2 ≠ none) →
    (scanResumes valid rs).1.length =
      (rs.filter (fun r => !(strip r.text.toList).isEmpty)).length ∧
    (scanResumes valid rs).2 =
      (rs.filter (fun r => (strip r.text.toList).isEmpty)).map
        (fun r => "Could not extract text from " ++ r.filename) := by
  intro rs
  induction rs with
  | nil => intro _; exact ⟨rfl, rfl⟩
  | cons r t ih =>
    intro h
    obtain ⟨ih1, ih2⟩ := ih (fun x hx => h x (List.mem_cons_of_mem r hx))
    rcases hst : scanResumes valid t with ⟨ss, es⟩
    rw [hst] at ih1 ih2
    unfold scanResumes
    by_cases hb : (strip r.text.toList).isEmpty
    · have hb' : strip r.text.toList = [] := List.isEmpty_iff.mp hb
      simp only [String.toList] at hb'
      rw [if_pos hb, hst]
      constructor
      · simpa [List.filter_cons, hb, hb'] using ih1
      · simpa [List.filter_cons, hb, hb'] using congrArg
          (List.cons ("Could not extract text from " ++ r.filename)) ih2
    · have hb' : strip r.text.toList ≠ [] := by
        intro hh
        exact hb (List.isEmpty_iff.mpr hh)
      simp only [String.toList] at hb'
      rw [if_neg hb]
      obtain ⟨⟨n, e, p⟩, hm⟩ := multi_approach_some r.parser r.ner valid r.text
        (h r (List.mem_cons_self r t))
      rw [hm, hst]
      rw [Bool.not_eq_true] at hb
      constructor
      · simpa [List.filter_cons, hb, hb'] using congrArg Nat.succ ih1
      · simpa [List.filter_cons, hb, hb'] using ih2

/-- C9: a resume whose extracted text is empty or whitespace-only is
excluded from scoring and from the ranking, with exactly one named
processing error recorded for it, while every other resume is still
processed: the output has one ranked entry per non-blank resume and the
error list is exactly the blank resumes' messages in order. -/
theorem C9_empty_text_excluded (valid : String → Bool)
    (sim : String → String → ℚ) (job : String) (rs : List ResumeInput)
    (hjob : extract_skills (lowerString job) ≠ [])
    (hmail : ∀ r ∈ rs, (extract_entities_pyresparser r.parser).2 ≠ none) :
    (runBatch valid sim job rs).map (fun p => (p.1.length, p.2)) =
      some ((rs.filter (fun r => !(strip r.text.toList).isEmpty)).length,
        (rs.filter (fun r => (strip r.text.toList).isEmpty)).map
          (fun r => "Could not extract text from " ++ r.filename)) := by
  unfold runBatch
  rcases hs : scanResumes valid rs with ⟨scanned, errs⟩
  dsimp only
  obtain ⟨ranked, hr, hlen⟩ := rankAll_length sim (lowerString job) hjob scanned
  rw [hr]
  obtain ⟨h1, h2⟩ := scanResumes_spec valid rs hmail
  rw [hs] at h1 h2
  dsimp only at h1 h2
  simp only [Option.map_some']
  rw [(pySortDesc_perm (fun e => e.similarity_score) ranked).length_eq, hlen,
    h1, h2]

/-- Witness for C9: a concrete 3-resume batch whose second resume has
whitespace-only text yields exactly 2 ranked entries and 1 named
processing error. -/
theorem C9_witness :
    (runBatch (fun _ => true) (fun _ _ => 0) "python" c9Batch).map
        (fun p => (p.1.length, p.2)) =
      some (2, ["Could not extract text from b.pdf"]) := by
  rw [C9_empty_text_excluded (fun _ => true) (fun _ _ => 0) "python" c9Batch
    (by decide) (by decide)]
  decide

end ResumeRanker
